import Mathlib

/-!
Verification development for the NihonGo Master client.

The repository is a browser app; the "core" specified in spec.md is the
AI-service client contract layer and the local state-reconciliation logic
(recent-history and saved-items stores, import/export merge, translate-flow
orchestration).  The definitions below are shallow embeddings of the
TypeScript source: pure functions become Lean functions, the JavaScript
string primitives used by the source (trim, toLowerCase, includes,
Number.prototype.toString) are modelled by structurally recursive functions
over character lists, and the translate flow becomes an explicit
state-transition function parameterised by the backend call's outcome.

Two variants of the application shell exist in the repository:
`src/App.tsx` (namespace `AppTsx`) and `src/unnamed/part_002`
(namespace `Part002`).  Where they disagree (dedup keys, capacity caps,
result clearing) both are embedded.
-/

/-! ## JavaScript string primitives (models) -/

/-- Model of JavaScript's ASCII case folding as performed by
`String.prototype.toLowerCase` on the ASCII range (the only range the
source's comparisons rely on). -/
def lowerChar (c : Char) : Char :=
  if 65 ≤ c.toNat ∧ c.toNat ≤ 90 then Char.ofNat (c.toNat + 32) else c

/-- Model of `String.prototype.toLowerCase`. -/
def jsToLower (s : String) : String :=
  String.mk (s.data.map lowerChar)

/-- Whitespace recognised by the model of `String.prototype.trim`. -/
def isJsWhitespace (c : Char) : Bool :=
  c == ' ' || c == '\t' || c == '\n' || c == '\r'

/-- Drop leading whitespace from a character list. -/
def dropLeadingWs : List Char → List Char
  | [] => []
  | c :: cs => if isJsWhitespace c then dropLeadingWs cs else c :: cs

/-- Model of `String.prototype.trim`. -/
def jsTrim (s : String) : String :=
  String.mk ((dropLeadingWs (dropLeadingWs s.data.reverse).reverse))

/-- Predicate `leadsWith n h` holds when `n` is an initial segment of `h`. -/
def leadsWith : List Char → List Char → Bool
  | [], _ => true
  | _ :: _, [] => false
  | a :: as, b :: bs => a == b && leadsWith as bs

/-- Substring occurrence over character lists. -/
def hasSubAux (needle : List Char) : List Char → Bool
  | [] => leadsWith needle []
  | c :: hs => leadsWith needle (c :: hs) || hasSubAux needle hs

/-- Model of `String.prototype.includes`. -/
def hasSubstr (needle hay : String) : Bool :=
  hasSubAux needle.data hay.data

/-- Decimal digit to its character, used by the model of
`Number.prototype.toString`. -/
def digitChar (d : Nat) : Char := Char.ofNat (48 + d)

/-- Little-endian decimal digits of `n`, with explicit fuel so that the
definition is structurally recursive. -/
def decDigitsCore : Nat → Nat → List Nat
  | 0, _ => []
  | fuel + 1, n => if n = 0 then [] else n % 10 :: decDigitsCore fuel (n / 10)

/-- Model of `Number.prototype.toString` for the natural numbers produced
by `Date.now()`. -/
def jsNatToString (n : Nat) : String :=
  if n = 0 then "0" else String.mk ((decDigitsCore n n).reverse.map digitChar)

/-! ## Data model (`src/unnamed/part_000`, `types.ts`) -/

/-- The `tone` enumeration of `TranslationResult`. -/
inductive Tone where
  | casual
  | polite
  | formalKeigo
deriving DecidableEq, Repr

/-- One entry of `TranslationResult.breakdown`. -/
structure WordBreakdown where
  word : String
  romaji : String
  meaning : String
  partOfSpeech : String
  exampleSentence : Option String
deriving DecidableEq, Repr

/-- The structured translation payload returned by the AI service. -/
structure TranslationResult where
  japanese : String
  romaji : String
  pronunciation : String
  englishMeaning : String
  tone : Tone
  culturalNote : Option String
  breakdown : List WordBreakdown
deriving DecidableEq, Repr

/-- One item of the recent-history or saved-items collections. -/
structure HistoryItem where
  id : String
  originalText : String
  result : TranslationResult
  timestamp : Nat
deriving DecidableEq, Repr

/-! ## Store operations, `src/unnamed/part_002` variant -/

namespace Part002

/-- The item built by `saveToHistory` in `src/unnamed/part_002`:
`{ id: Date.now().toString(), originalText: originalText.trim(),
result, timestamp: Date.now() }`. -/
def mkHistoryItem (originalText : String) (res : TranslationResult)
    (now : Nat) : HistoryItem :=
  { id := jsNatToString now
    originalText := jsTrim originalText
    result := res
    timestamp := now }

/-- Function `saveToHistory` from `src/unnamed/part_002`: removes items whose
lower-cased stored text equals the trimmed lower-cased input, prepends the
new item, and keeps the first 6 (`slice(0, 6)`). -/
def saveToHistory (prev : List HistoryItem) (originalText : String)
    (res : TranslationResult) (now : Nat) : List HistoryItem :=
  ((mkHistoryItem originalText res now ::
      prev.filter
        (fun item => jsToLower item.originalText != jsToLower (jsTrim originalText))).take 6)

/-- The item built by `toggleSavedItem` when adding:
`{ id: saved-${Date.now()}, originalText: currentText, result, timestamp }`. -/
def mkSavedItem (currentText : String) (res : TranslationResult)
    (now : Nat) : HistoryItem :=
  { id := "saved-" ++ jsNatToString now
    originalText := currentText
    result := res
    timestamp := now }

/-- Function `toggleSavedItem` from `src/unnamed/part_002`: membership is the pair
(case-folded stored text = case-folded trimmed input, exact `result.japanese`
match); removes all matching items if present, otherwise prepends. -/
def toggleSavedItem (saved : List HistoryItem) (inputText : String)
    (res : TranslationResult) (now : Nat) : List HistoryItem :=
  let currentText := jsTrim inputText
  if saved.any (fun item =>
      jsToLower item.originalText == jsToLower currentText &&
      item.result.japanese == res.japanese) then
    saved.filter (fun item =>
      !(jsToLower item.originalText == jsToLower currentText &&
        item.result.japanese == res.japanese))
  else
    mkSavedItem currentText res now :: saved

end Part002

/-! ## Store operations, `src/App.tsx` variant -/

namespace AppTsx

/-- The item built inline by `handleTranslate` in `src/App.tsx`:
`{ id: Date.now().toString(), originalText: inputText, result: data,
timestamp: Date.now() }` (no trimming). -/
def mkHistoryItem (inputText : String) (res : TranslationResult)
    (now : Nat) : HistoryItem :=
  { id := jsNatToString now
    originalText := inputText
    result := res
    timestamp := now }

/-- The history update inline in `handleTranslate` of `src/App.tsx`:
`[newItem, ...prev.filter(x => x.originalText !== inputText)].slice(0, 10)`
— exact-match dedup, cap 10. -/
def recordHistory (prev : List HistoryItem) (inputText : String)
    (res : TranslationResult) (now : Nat) : List HistoryItem :=
  ((mkHistoryItem inputText res now ::
      prev.filter (fun x => x.originalText != inputText)).take 10)

/-- Function `onToggleSave` from `src/App.tsx`: membership is exact match on
`result.japanese` only; removes all items with that `japanese` if any is
present, otherwise prepends a new entry. -/
def onToggleSave (saved : List HistoryItem) (inputText : String)
    (res : TranslationResult) (now : Nat) : List HistoryItem :=
  if saved.any (fun x => x.result.japanese == res.japanese) then
    saved.filter (fun x => x.result.japanese != res.japanese)
  else
    { id := jsNatToString now
      originalText := inputText
      result := res
      timestamp := now } :: saved

end AppTsx

/-! ## Facts about the string models -/

theorem dropLeadingWs_suffix (l : List Char) : List.IsSuffix (dropLeadingWs l) l := by
  induction l with
  | nil => exact List.suffix_refl _
  | cons c cs ih =>
    by_cases h : isJsWhitespace c = true
    · simpa [dropLeadingWs, h] using ih.trans (List.suffix_cons c cs)
    · simp [dropLeadingWs, h]

theorem dropLeadingWs_head (l : List Char) (c : Char) (cs : List Char)
    (h : dropLeadingWs l = c :: cs) : isJsWhitespace c = false := by
  induction l with
  | nil => simp [dropLeadingWs] at h
  | cons d ds ih =>
    by_cases hd : isJsWhitespace d = true
    · exact ih (by simpa [dropLeadingWs, hd] using h)
    · simp only [dropLeadingWs, hd, if_false] at h
      obtain ⟨rfl, -⟩ := List.cons.injEq d ds c cs ▸ h
      simpa using hd

theorem dropLeadingWs_eq_self (l : List Char)
    (h : ∀ c cs, l = c :: cs → isJsWhitespace c = false) : dropLeadingWs l = l := by
  cases l with
  | nil => rfl
  | cons c cs => simp [dropLeadingWs, h c cs rfl]

theorem trim_step (A : List Char)
    (hA : ∀ c cs, A = c :: cs → isJsWhitespace c = false) :
    dropLeadingWs (dropLeadingWs ((dropLeadingWs A.reverse).reverse)).reverse
      = dropLeadingWs A.reverse := by
  cases hB : dropLeadingWs A.reverse with
  | nil => simp [dropLeadingWs]
  | cons b bs =>
    have hb : isJsWhitespace b = false := dropLeadingWs_head A.reverse b bs hB
    have hAne : A ≠ [] := by
      intro h0
      rw [h0] at hB
      simp [dropLeadingWs] at hB
    obtain ⟨a, as, hAc⟩ := List.exists_cons_of_ne_nil hAne
    have ha : isJsWhitespace a = false := hA a as hAc
    obtain ⟨t, ht⟩ := dropLeadingWs_suffix A.reverse
    rw [hB] at ht
    have hrev : (b :: bs).reverse ++ t.reverse = A := by
      have h2 := congrArg List.reverse ht
      simpa using h2
    have hBrev : ∃ xs, (b :: bs).reverse = a :: xs := by
      cases hBr : (b :: bs).reverse with
      | nil => simp at hBr
      | cons x xs =>
        rw [hBr, hAc, List.cons_append] at hrev
        injection hrev with h1 _
        exact ⟨xs, by rw [h1]⟩
    obtain ⟨xs, hBr⟩ := hBrev
    have step1 : dropLeadingWs (b :: bs).reverse = (b :: bs).reverse := by
      apply dropLeadingWs_eq_self
      intro c cs hc
      rw [hBr] at hc
      injection hc with h1 _
      rw [← h1]
      exact ha
    rw [step1, List.reverse_reverse]
    exact dropLeadingWs_eq_self _ (fun c cs hc => by
      injection hc with h1 _
      rw [← h1]
      exact hb)

/-- Trimming is idempotent. -/
theorem jsTrim_idem (s : String) : jsTrim (jsTrim s) = jsTrim s := by
  apply String.ext
  show dropLeadingWs (dropLeadingWs
      ((dropLeadingWs (dropLeadingWs s.data.reverse).reverse)).reverse).reverse
    = dropLeadingWs (dropLeadingWs s.data.reverse).reverse
  exact trim_step (dropLeadingWs s.data.reverse)
    (fun c cs h => dropLeadingWs_head s.data.reverse c cs h)

/-- Normalized form of an input text: trim then case-fold, the comparison key
used by `saveToHistory` in `src/unnamed/part_002`. -/
def normKey (t : String) : String := jsToLower (jsTrim t)

/-- Normalized form of a stored item's `originalText`. -/
def normOf (x : HistoryItem) : String := jsToLower (jsTrim x.originalText)

theorem normOf_mkHistoryItem (t : String) (r : TranslationResult) (n : Nat) :
    normOf (Part002.mkHistoryItem t r n) = normKey t := by
  simp [normOf, Part002.mkHistoryItem, normKey, jsTrim_idem]

/-- A concrete translation result used by witnesses and counterexamples. -/
def trSample : TranslationResult :=
  { japanese := "こんにちは"
    romaji := "konnichiwa"
    pronunciation := "ko-n-ni-chi-wa"
    englishMeaning := "hello"
    tone := Tone.polite
    culturalNote := none
    breakdown := [] }

/-- Filtering a `take` of a cons whose head satisfies `p` and whose tail
elements all fail `p` yields exactly the head. -/
theorem filter_take_cons_of_false {α : Type} {p : α → Bool} {x : α}
    {L : List α} (n : Nat) (hx : p x = true) (hL : ∀ y ∈ L, p y = false) :
    ((x :: L).take (n + 1)).filter p = [x] := by
  rw [List.take_succ_cons]
  simp only [List.filter_cons, hx, if_true]
  rw [List.filter_eq_nil_iff.mpr]
  intro y hy
  simp [hL y ((List.take_sublist n L).subset hy)]

/-- C1, as stated, is false: the `src/App.tsx` history-recording step of the
translate flow deduplicates by exact `originalText` match, so recording
"hello" and then "Hello" (equal after trimming and case folding) leaves two
items whose normalized `originalText` coincide. -/
theorem c1_counterexample :
    List.map (fun x => jsToLower (jsTrim x.originalText))
      (AppTsx.recordHistory (AppTsx.recordHistory [] "hello" trSample 1)
        "Hello" trSample 2)
      = ["hello", "hello"] := by decide

/-- C1 (amended): the `part_002` `saveToHistory` compares lower-cased stored
text against the trimmed lower-cased input.  Provided every item of the prior
collection has trimmed `originalText` and the prior collection has no two
items with equal normalized `originalText`, (a) the recorded collection has no
two items with equal normalized `originalText`, and (b) recording the same
normalized text twice in a row leaves exactly one item with that normalized
text — the most recent one, stored with the most recent call's (trimmed)
casing. -/
theorem c1_amended_theorem
    (prev : List HistoryItem) (t1 t2 : String)
    (r1 r2 : TranslationResult) (n1 n2 : Nat)
    (hTrim : ∀ x ∈ prev, jsTrim x.originalText = x.originalText)
    (hNodup : prev.Pairwise (fun a b => normOf a ≠ normOf b))
    (hSame : normKey t1 = normKey t2) :
    (Part002.saveToHistory prev t1 r1 n1).Pairwise (fun a b => normOf a ≠ normOf b) ∧
    (Part002.saveToHistory (Part002.saveToHistory prev t1 r1 n1) t2 r2 n2).filter
        (fun x => normOf x == normKey t2) = [Part002.mkHistoryItem t2 r2 n2] ∧
    (Part002.mkHistoryItem t2 r2 n2).originalText = jsTrim t2 := by
  refine ⟨?_, ?_, rfl⟩
  · -- invariant preservation
    have hfil : (prev.filter
        (fun item => jsToLower item.originalText != jsToLower (jsTrim t1))).Pairwise
        (fun a b => normOf a ≠ normOf b) :=
      hNodup.sublist (List.filter_sublist _)
    have hhead : ∀ x ∈ prev.filter
        (fun item => jsToLower item.originalText != jsToLower (jsTrim t1)),
        normOf (Part002.mkHistoryItem t1 r1 n1) ≠ normOf x := by
      intro x hx
      obtain ⟨hxprev, hcond⟩ := List.mem_filter.mp hx
      have hne : jsToLower x.originalText ≠ jsToLower (jsTrim t1) := by
        simpa using hcond
      have hxn : normOf x = jsToLower x.originalText := by
        rw [normOf, hTrim x hxprev]
      rw [normOf_mkHistoryItem]
      intro hEq
      exact hne (by rw [hxn] at hEq; exact hEq.symm)
    have hbig := List.pairwise_cons.mpr ⟨hhead, hfil⟩
    exact hbig.sublist (List.take_sublist _ _)
  · -- idempotence on a normalized duplicate
    show ((Part002.mkHistoryItem t2 r2 n2 ::
        (Part002.saveToHistory prev t1 r1 n1).filter
          (fun item => jsToLower item.originalText != jsToLower (jsTrim t2))).take 6).filter
        (fun x => normOf x == normKey t2)
      = [Part002.mkHistoryItem t2 r2 n2]
    refine filter_take_cons_of_false 5 ?_ ?_
    · simp [normOf_mkHistoryItem]
    · intro y hy
      obtain ⟨hy1, hcond2⟩ := List.mem_filter.mp hy
      have hne2 : jsToLower y.originalText ≠ normKey t2 := by
        simpa [normKey] using hcond2
      have hy2 : y ∈ Part002.mkHistoryItem t1 r1 n1 ::
          prev.filter (fun item => jsToLower item.originalText != jsToLower (jsTrim t1)) :=
        (List.take_sublist _ _).subset hy1
      rcases List.mem_cons.mp hy2 with hEq | hyfil
      · exfalso
        apply hne2
        rw [hEq]
        show jsToLower (jsTrim t1) = normKey t2
        rw [← hSame]
        rfl
      · have hyprev : y ∈ prev := (List.filter_sublist _).subset hyfil
        have hyn : normOf y = jsToLower y.originalText := by
          rw [normOf, hTrim y hyprev]
        simp [hyn, hne2]

/-- C1 amended-theorem witness at concrete inputs. -/
theorem c1_witness :
    (Part002.saveToHistory [⟨"0", "bye", trSample, 0⟩] "Hi" trSample 1).Pairwise
      (fun a b => normOf a ≠ normOf b) ∧
    (Part002.saveToHistory
        (Part002.saveToHistory [⟨"0", "bye", trSample, 0⟩] "Hi" trSample 1)
        " hi" trSample 2).filter (fun x => normOf x == normKey " hi")
      = [Part002.mkHistoryItem " hi" trSample 2] ∧
    (Part002.mkHistoryItem " hi" trSample 2).originalText = jsTrim " hi" :=
  c1_amended_theorem [⟨"0", "bye", trSample, 0⟩] "Hi" " hi" trSample trSample 1 2
    (by decide) (by decide) (by decide)

/-! ## Insertion sequences into the recent-history store -/

/-- One history insertion of the translate flow: the submitted text, the
successful result, and the `Date.now()` value at recording time. -/
structure HistIns where
  text : String
  res : TranslationResult
  now : Nat
deriving DecidableEq, Repr

/-- Common shape of both history recorders: prepend the freshly built item to
the survivors of a dedup filter, then truncate to the cap. -/
def recordGen (mk : HistIns → HistoryItem) (keep : HistoryItem → HistIns → Bool)
    (cap : Nat) (h : List HistoryItem) (i : HistIns) : List HistoryItem :=
  ((mk i :: h.filter (fun x => keep x i)).take cap)

/-- One `saveToHistory` call as a fold step. -/
def histStep (h : List HistoryItem) (i : HistIns) : List HistoryItem :=
  Part002.saveToHistory h i.text i.res i.now

theorem foldl_recordGen (mk : HistIns → HistoryItem)
    (keep : HistoryItem → HistIns → Bool) (cap : Nat) (l : List HistIns)
    (hp : l.Pairwise (fun a b => keep (mk a) b = true)) :
    List.foldl (recordGen mk keep cap) [] l = (l.reverse.map mk).take cap := by
  induction l using List.reverseRecOn with
  | nil => simp
  | append_singleton l a ih =>
    obtain ⟨hl, -, hcross⟩ := List.pairwise_append.mp hp
    rw [List.foldl_append]
    simp only [List.foldl_cons, List.foldl_nil]
    rw [ih hl]
    show ((mk a :: ((l.reverse.map mk).take cap).filter (fun x => keep x a)).take cap)
      = (((l ++ [a]).reverse.map mk).take cap)
    have hfil : ((l.reverse.map mk).take cap).filter (fun x => keep x a)
        = (l.reverse.map mk).take cap := by
      apply List.filter_eq_self.mpr
      intro x hx
      have hx2 : x ∈ l.reverse.map mk := (List.take_sublist _ _).subset hx
      obtain ⟨b, hb, rfl⟩ := List.mem_map.mp hx2
      exact hcross b (List.mem_reverse.mp hb) a (List.mem_singleton.mpr rfl)
    rw [hfil]
    have hshape : (l ++ [a]).reverse.map mk = mk a :: l.reverse.map mk := by simp
    rw [hshape]
    cases cap with
    | zero => simp
    | succ c =>
      rw [List.take_succ_cons, List.take_succ_cons, List.take_take,
        Nat.min_eq_left (Nat.le_succ c)]

/-- C2: the recent-history collection respects its cap after every call
(6 for the `part_002` `saveToHistory`, 10 for the `App.tsx` inline recorder),
the new item is prepended, and for every sequence of at least cap-many
insertions with pairwise distinct normalized texts, starting from the empty
collection, the resulting collection is exactly the last 6 insertions in
reverse chronological order, with the older insertions dropped. -/
theorem c2_theorem (prev : List HistoryItem) (t : String) (r : TranslationResult)
    (n : Nat) (l : List HistIns)
    (hl : l.Pairwise (fun a b => normKey a.text ≠ normKey b.text))
    (hlen : 6 ≤ l.length) :
    (Part002.saveToHistory prev t r n).length ≤ 6 ∧
    (Part002.saveToHistory prev t r n).head? = some (Part002.mkHistoryItem t r n) ∧
    (AppTsx.recordHistory prev t r n).length ≤ 10 ∧
    (AppTsx.recordHistory prev t r n).head? = some (AppTsx.mkHistoryItem t r n) ∧
    List.foldl histStep [] l
      = (l.reverse.map (fun i => Part002.mkHistoryItem i.text i.res i.now)).take 6 ∧
    (List.foldl histStep [] l).length = 6 := by
  have hfold : List.foldl histStep [] l
      = (l.reverse.map (fun i => Part002.mkHistoryItem i.text i.res i.now)).take 6 := by
    have heq : histStep = recordGen (fun i => Part002.mkHistoryItem i.text i.res i.now)
        (fun x i => jsToLower x.originalText != jsToLower (jsTrim i.text)) 6 := rfl
    rw [heq]
    apply foldl_recordGen
    refine hl.imp ?_
    intro a b hab
    exact bne_iff_ne.mpr hab
  refine ⟨?_, rfl, ?_, rfl, hfold, ?_⟩
  · apply List.length_take_le
  · apply List.length_take_le
  · rw [hfold]
    simp [Nat.min_eq_left hlen]

/-- C2 witness: seven distinct-text insertions from the empty collection. -/
theorem c2_witness :
    (Part002.saveToHistory [] "x" trSample 0).length ≤ 6 ∧
    (Part002.saveToHistory [] "x" trSample 0).head?
      = some (Part002.mkHistoryItem "x" trSample 0) ∧
    (AppTsx.recordHistory [] "x" trSample 0).length ≤ 10 ∧
    (AppTsx.recordHistory [] "x" trSample 0).head?
      = some (AppTsx.mkHistoryItem "x" trSample 0) ∧
    List.foldl histStep []
        [⟨"a", trSample, 1⟩, ⟨"b", trSample, 2⟩, ⟨"c", trSample, 3⟩,
         ⟨"d", trSample, 4⟩, ⟨"e", trSample, 5⟩, ⟨"f", trSample, 6⟩,
         ⟨"g", trSample, 7⟩]
      = (([⟨"a", trSample, 1⟩, ⟨"b", trSample, 2⟩, ⟨"c", trSample, 3⟩,
          ⟨"d", trSample, 4⟩, ⟨"e", trSample, 5⟩, ⟨"f", trSample, 6⟩,
          ⟨"g", trSample, 7⟩] : List HistIns).reverse.map
          (fun i => Part002.mkHistoryItem i.text i.res i.now)).take 6 ∧
    (List.foldl histStep []
        [⟨"a", trSample, 1⟩, ⟨"b", trSample, 2⟩, ⟨"c", trSample, 3⟩,
         ⟨"d", trSample, 4⟩, ⟨"e", trSample, 5⟩, ⟨"f", trSample, 6⟩,
         ⟨"g", trSample, 7⟩]).length = 6 :=
  c2_theorem [] "x" trSample 0
    [⟨"a", trSample, 1⟩, ⟨"b", trSample, 2⟩, ⟨"c", trSample, 3⟩,
     ⟨"d", trSample, 4⟩, ⟨"e", trSample, 5⟩, ⟨"f", trSample, 6⟩,
     ⟨"g", trSample, 7⟩]
    (by decide) (by decide)

/-- Membership of a Japanese text in a saved-items collection
(`savedItems.some(x => x.result.japanese === key)`). -/
def memJ (key : String) (l : List HistoryItem) : Bool :=
  l.any (fun x => x.result.japanese == key)

theorem any_congr_mem {α : Type} (l : List α) (p q : α → Bool)
    (h : ∀ x ∈ l, p x = q x) : l.any p = l.any q := by
  induction l with
  | nil => rfl
  | cons a as ih =>
    simp only [List.any_cons, h a (List.mem_cons_self a as)]
    rw [ih (fun x hx => h x (List.mem_cons_of_mem a hx))]

/-- C3, as stated, is false: the `part_002` `toggleSavedItem` computes
membership by the pair (case-folded `originalText`, `result.japanese`), not by
`result.japanese` alone.  With an item with the same Japanese text but a
different original text present, toggling prepends instead of removing,
leaving two items with that Japanese text. -/
theorem c3_counterexample :
    List.map (fun x => x.result.japanese)
      (Part002.toggleSavedItem [⟨"1", "hello", trSample, 0⟩] "goodbye" trSample 5)
      = [trSample.japanese, trSample.japanese] := by decide

/-- C3 (amended): the `src/App.tsx` `onToggleSave` computes membership by
exact match on `result.japanese` only: if an item with that Japanese text is
present all such items are removed, if absent a new entry is prepended; and
double toggling with the same result restores the collection's
membership-by-Japanese-text for every key.  (`part_002`'s `toggleSavedItem`
instead keys on the pair with case-folded `originalText` — see the
counterexample.) -/
theorem c3_amended_theorem (saved : List HistoryItem) (input1 input2 : String)
    (res : TranslationResult) (n1 n2 : Nat) (key : String) :
    (saved.any (fun x => x.result.japanese == res.japanese) = true →
      AppTsx.onToggleSave saved input1 res n1
        = saved.filter (fun x => x.result.japanese != res.japanese)) ∧
    (saved.any (fun x => x.result.japanese == res.japanese) = false →
      AppTsx.onToggleSave saved input1 res n1
        = ⟨jsNatToString n1, input1, res, n1⟩ :: saved) ∧
    memJ key (AppTsx.onToggleSave (AppTsx.onToggleSave saved input1 res n1)
        input2 res n2)
      = memJ key saved := by
  refine ⟨fun hm => by simp [AppTsx.onToggleSave, hm],
    fun hm => by simp [AppTsx.onToggleSave, hm], ?_⟩
  by_cases hm : saved.any (fun x => x.result.japanese == res.japanese) = true
  · have ht1 : AppTsx.onToggleSave saved input1 res n1
        = saved.filter (fun x => x.result.japanese != res.japanese) := by
      simp [AppTsx.onToggleSave, hm]
    have ht1any : (saved.filter (fun x => x.result.japanese != res.japanese)).any
        (fun x => x.result.japanese == res.japanese) = false := by
      rw [List.any_filter, List.any_eq_false]
      intro x _
      cases hb : x.result.japanese == res.japanese <;> simp [bne, hb]
    have ht2 : AppTsx.onToggleSave
        (saved.filter (fun x => x.result.japanese != res.japanese)) input2 res n2
        = ⟨jsNatToString n2, input2, res, n2⟩ ::
          saved.filter (fun x => x.result.japanese != res.japanese) := by
      simp [AppTsx.onToggleSave, ht1any]
    rw [ht1, ht2]
    by_cases hkey : res.japanese = key
    · obtain ⟨x, hxs, hxj⟩ := List.any_eq_true.mp hm
      have hxkey : (x.result.japanese == key) = true :=
        beq_iff_eq.mpr (by rw [beq_iff_eq.mp hxj, hkey])
      have hr : saved.any (fun x => x.result.japanese == key) = true :=
        List.any_eq_true.mpr ⟨x, hxs, hxkey⟩
      simp only [memJ, List.any_cons, beq_iff_eq.mpr hkey, Bool.true_or, hr]
    · have hbk : (res.japanese == key) = false := beq_eq_false_iff_ne.mpr hkey
      simp only [memJ, List.any_cons, hbk, Bool.false_or]
      rw [List.any_filter]
      apply any_congr_mem
      intro x _
      cases hb : x.result.japanese == key
      · simp [hb]
      · have hxk : x.result.japanese = key := beq_iff_eq.mp hb
        have hne : (x.result.japanese != res.japanese) = true :=
          bne_iff_ne.mpr (fun hEq => hkey (by rw [← hEq]; exact hxk))
      
        simp [hne, hb]
  · have hm' : saved.any (fun x => x.result.japanese == res.japanese) = false := by
      simpa using hm
    have ht1 : AppTsx.onToggleSave saved input1 res n1
        = ⟨jsNatToString n1, input1, res, n1⟩ :: saved := by
      simp [AppTsx.onToggleSave, hm']
    have hany2 : ((⟨jsNatToString n1, input1, res, n1⟩ : HistoryItem) :: saved).any
        (fun x => x.result.japanese == res.japanese) = true := by
      simp [List.any_cons]
    have ht2 : AppTsx.onToggleSave
        ((⟨jsNatToString n1, input1, res, n1⟩ : HistoryItem) :: saved) input2 res n2
        = ((⟨jsNatToString n1, input1, res, n1⟩ : HistoryItem) :: saved).filter
            (fun x => x.result.japanese != res.japanese) := by
      simp [AppTsx.onToggleSave, hany2]
    have hdrop : ((⟨jsNatToString n1, input1, res, n1⟩ : HistoryItem) :: saved).filter
        (fun x => x.result.japanese != res.japanese) = saved := by
      rw [List.filter_cons]
      have hself : ((⟨jsNatToString n1, input1, res, n1⟩ : HistoryItem).result.japanese
          != res.japanese) = false := by
        simp [bne]
      rw [if_neg (by simp [hself])]
      apply List.filter_eq_self.mpr
      intro x hx
      have hxf : (x.result.japanese == res.japanese) = false := by
        have := List.any_eq_false.mp hm' x hx
        simpa using this
      simpa [bne] using hxf
    rw [ht1, ht2, hdrop]

/-- C3 amended-theorem witness at concrete inputs. -/
theorem c3_witness :
    (([⟨"1", "hola", trSample, 0⟩] : List HistoryItem).any
        (fun x => x.result.japanese == trSample.japanese) = true →
      AppTsx.onToggleSave [⟨"1", "hola", trSample, 0⟩] "hello" trSample 5
        = ([⟨"1", "hola", trSample, 0⟩] : List HistoryItem).filter
            (fun x => x.result.japanese != trSample.japanese)) ∧
    (([⟨"1", "hola", trSample, 0⟩] : List HistoryItem).any
        (fun x => x.result.japanese == trSample.japanese) = false →
      AppTsx.onToggleSave [⟨"1", "hola", trSample, 0⟩] "hello" trSample 5
        = ⟨jsNatToString 5, "hello", trSample, 5⟩ :: [⟨"1", "hola", trSample, 0⟩]) ∧
    memJ trSample.japanese
        (AppTsx.onToggleSave
          (AppTsx.onToggleSave [⟨"1", "hola", trSample, 0⟩] "hello" trSample 5)
          "hello" trSample 6)
      = memJ trSample.japanese [⟨"1", "hola", trSample, 0⟩] :=
  c3_amended_theorem [⟨"1", "hola", trSample, 0⟩] "hello" "hello" trSample 5 6
    trSample.japanese

/-! ## JSON documents and the saved-items import/export
(`handleExportSaved` / `handleImportSaved` in `src/unnamed/part_002`).

The saved collection is handled by the import code as raw parsed JSON
values (imported array elements are stored as-is, whatever their shape),
so these operations are modelled over a JSON value type.  `JSON.parse` and
`JSON.stringify` are platform capabilities; a parsed document is modelled
as `Option Json`, `none` standing for a document on which `JSON.parse`
throws. -/

/-- Parsed JSON values. -/
inductive Json where
  | null
  | bool (b : Bool)
  | num (n : Int)
  | str (s : String)
  | arr (elems : List Json)
  | obj (fields : List (String × Json))

/-- Top-constructor test for `null`. -/
def isNull : Json → Bool
  | .null => true
  | _ => false

/-- Top-constructor test for arrays (`Array.isArray`). -/
def isArr : Json → Bool
  | .arr _ => true
  | _ => false

/-- JavaScript truthiness of a JSON value. -/
def truthy : Json → Bool
  | .null => false
  | .bool b => b
  | .num n => n != 0
  | .str s => s != ""
  | .arr _ => true
  | .obj _ => true

/-- Field lookup in a JSON object (`JSON.parse` yields unique keys). -/
def jlookup : List (String × Json) → String → Option Json
  | [], _ => none
  | (k, v) :: rest, key => if k == key then some v else jlookup rest key

/-- Model of JavaScript member access `value[key]`: accessing a member of
`null` throws a `TypeError` (`Except.error`); members of other non-object
values are `undefined` (modelled `none`). -/
def getField : Json → String → Except Unit (Option Json)
  | .null, _ => .error ()
  | .obj fields, key => .ok (jlookup fields key)
  | _, _ => .ok none

/-- Model of the SameValueZero key equality used by JavaScript `Map`, on
possibly-`undefined` keys.  Object and array keys coming out of separate
`JSON.parse` results are distinct references and never compare equal. -/
def okeyEq : Option Json → Option Json → Bool
  | none, none => true
  | some a, some b =>
    match a, b with
    | .str x, .str y => x == y
    | .num x, .num y => x == y
    | .bool x, .bool y => x == y
    | .null, .null => true
    | _, _ => false
  | _, _ => false

/-- Model of `Map.prototype.set`: replace in place on an existing key (keeping the
key's original position), append otherwise. -/
def mapSet (m : List (Option Json × Json)) (k : Option Json) (v : Json) :
    List (Option Json × Json) :=
  if m.any (fun p => okeyEq p.1 k) then
    m.map (fun p => if okeyEq p.1 k then (p.1, v) else p)
  else m ++ [(k, v)]

/-- Key extraction for an existing item during
`new Map(prev.map(item => [item.result.japanese, item]))`: unguarded member
accesses, so a missing or `null` `result` throws. -/
def jsKeyOfPrev (item : Json) : Except Unit (Option Json) :=
  match getField item "result" with
  | .error e => .error e
  | .ok none => .error ()
  | .ok (some r) => getField r "japanese"

/-- Whether building the map entry for an existing item does not throw. -/
def keyOk (item : Json) : Bool :=
  match jsKeyOfPrev item with
  | .ok _ => true
  | .error _ => false

/-- Building `existingMap` from the previous collection, in order. -/
def buildMapAux (m : List (Option Json × Json)) :
    List Json → Except Unit (List (Option Json × Json))
  | [] => .ok m
  | it :: rest =>
    match jsKeyOfPrev it with
    | .error e => .error e
    | .ok k => buildMapAux (mapSet m k it) rest

/-- Building `new Map(prev.map(item => [item.result.japanese, item]))`. -/
def buildMap (prev : List Json) : Except Unit (List (Option Json × Json)) :=
  buildMapAux [] prev

/-- One `imported.forEach` iteration:
`if (item.result && item.result.japanese) existingMap.set(item.result.japanese, item)`.
Accessing `item.result` on a `null` element throws. -/
def importStep (m : List (Option Json × Json)) (item : Json) :
    Except Unit (List (Option Json × Json)) :=
  match getField item "result" with
  | .error e => .error e
  | .ok none => .ok m
  | .ok (some r) =>
    if truthy r then
      match getField r "japanese" with
      | .error e => .error e
      | .ok none => .ok m
      | .ok (some j) =>
        if truthy j then .ok (mapSet m (some j) item) else .ok m
    else .ok m

/-- The whole `imported.forEach` loop. -/
def importFold (m : List (Option Json × Json)) :
    List Json → Except Unit (List (Option Json × Json))
  | [] => .ok m
  | it :: rest =>
    match importStep m it with
    | .error e => .error e
    | .ok m2 => importFold m2 rest

/-- The merge key an imported element would be stored under, `none` when the
guard `item.result && item.result.japanese` rejects it. -/
def importKeyOf (item : Json) : Option Json :=
  match getField item "result" with
  | .ok (some r) =>
    if truthy r then
      match getField r "japanese" with
      | .ok (some j) => if truthy j then some j else none
      | _ => none
    else none
  | _ => none

/-- Whether an imported element passes the merge guard. -/
def importKeep (item : Json) : Bool :=
  (importKeyOf item).isSome

/-- Observable outcome of one import attempt. -/
inductive ImportOutcome where
  | merged
  | ignoredNonArray
  | parseError
  | thrown
deriving DecidableEq, Repr

/-- Function `handleImportSaved` from `src/unnamed/part_002`, as a function of the
parsed document (`none` = `JSON.parse` threw) and the previous collection.
A parse failure is caught and surfaced (`parseError`); a parsed non-array
document silently does nothing (`ignoredNonArray`); a `TypeError` thrown
while merging aborts the state update without committing a new collection
(`thrown`); otherwise the merged map's values are committed (`merged`). -/
def handleImportSaved (doc : Option Json) (prev : List Json) :
    List Json × ImportOutcome :=
  match doc with
  | none => (prev, .parseError)
  | some (.arr imported) =>
    match buildMap prev with
    | .error _ => (prev, .thrown)
    | .ok m0 =>
      match importFold m0 imported with
      | .error _ => (prev, .thrown)
      | .ok m => (m.map (fun p => p.2), .merged)
  | some _ => (prev, .ignoredNonArray)

/-- Function `handleExportSaved` from `src/unnamed/part_002`: no document is produced
for an empty collection (`if (savedItems.length === 0) return`), otherwise
the whole collection is serialized as a JSON array. -/
def handleExportSaved (saved : List Json) : Option Json :=
  if saved.isEmpty then none else some (.arr saved)

/-- Pure form of one merge iteration, defined on elements whose member
access does not throw. -/
def importStepPure (m : List (Option Json × Json)) (item : Json) :
    List (Option Json × Json) :=
  match importKeyOf item with
  | some j => mapSet m (some j) item
  | none => m

theorem importStep_eq_pure (m : List (Option Json × Json)) (item : Json)
    (h : isNull item = false) :
    importStep m item = .ok (importStepPure m item) := by
  cases item with
  | null => simp [isNull] at h
  | bool b => rfl
  | num n => rfl
  | str s => rfl
  | arr elems => rfl
  | obj fields =>
    cases hr : jlookup fields "result" with
    | none => simp [importStep, importStepPure, importKeyOf, getField, hr]
    | some r =>
      cases htr : truthy r with
      | false => simp [importStep, importStepPure, importKeyOf, getField, hr, htr]
      | true =>
        cases r with
        | null => simp [truthy] at htr
        | bool b => simp [importStep, importStepPure, importKeyOf, getField, hr, htr]
        | num n => simp [importStep, importStepPure, importKeyOf, getField, hr, htr]
        | str s => simp [importStep, importStepPure, importKeyOf, getField, hr, htr]
        | arr es => simp [importStep, importStepPure, importKeyOf, getField, hr, htr]
        | obj rf =>
          cases hj : jlookup rf "japanese" with
          | none => simp [importStep, importStepPure, importKeyOf, getField, hr, htr, hj]
          | some j =>
            cases htj : truthy j <;>
              simp [importStep, importStepPure, importKeyOf, getField, hr, htr, hj, htj]

theorem importFold_eq_pure (imported : List Json) :
    ∀ m, (∀ it ∈ imported, isNull it = false) →
    importFold m imported = .ok (List.foldl importStepPure m imported) := by
  induction imported with
  | nil => intro m _; rfl
  | cons it rest ih =>
    intro m h
    have h1 := importStep_eq_pure m it (h it (List.mem_cons_self it rest))
    show (match importStep m it with
      | Except.error e => Except.error e
      | Except.ok m2 => importFold m2 rest)
      = Except.ok (List.foldl importStepPure m (it :: rest))
    rw [h1]
    exact ih (importStepPure m it) (fun x hx => h x (List.mem_cons_of_mem it hx))

theorem foldl_importStepPure_filter (imported : List Json) :
    ∀ m, List.foldl importStepPure m imported
      = List.foldl importStepPure m (imported.filter importKeep) := by
  induction imported with
  | nil => intro m; rfl
  | cons it rest ih =>
    intro m
    cases hk : importKeyOf it with
    | none =>
      have hkeep : importKeep it = false := by simp [importKeep, hk]
      have hid : importStepPure m it = m := by simp [importStepPure, hk]
      simp only [List.foldl_cons, List.filter_cons, hkeep, hid]
      simpa using ih m
    | some j =>
      have hkeep : importKeep it = true := by simp [importKeep, hk]
      simp only [List.foldl_cons, List.filter_cons, hkeep, if_true]
      simpa using ih (importStepPure m it)

theorem buildMapAux_ok (prev : List Json) :
    ∀ m, (∀ it ∈ prev, keyOk it = true) →
    ∃ m2, buildMapAux m prev = .ok m2 := by
  induction prev with
  | nil => intro m _; exact ⟨m, rfl⟩
  | cons it rest ih =>
    intro m h
    have h1 : keyOk it = true := h it (List.mem_cons_self it rest)
    cases hk : jsKeyOfPrev it with
    | error e => simp [keyOk, hk] at h1
    | ok k =>
      have hstep : buildMapAux m (it :: rest) = buildMapAux (mapSet m k it) rest := by
        simp [buildMapAux, hk]
      rw [hstep]
      exact ih _ (fun x hx => h x (List.mem_cons_of_mem it hx))

/-- A sample saved entry with Japanese key "J". -/
def entryA : Json :=
  Json.obj [("originalText", Json.str "hi"), ("result", Json.obj [("japanese", Json.str "J")])]

/-- A second entry with the same Japanese key "J" but other original text. -/
def entryB : Json :=
  Json.obj [("originalText", Json.str "hello"), ("result", Json.obj [("japanese", Json.str "J")])]

/-- An entry with a distinct Japanese key "K". -/
def entryC : Json :=
  Json.obj [("originalText", Json.str "yo"), ("result", Json.obj [("japanese", Json.str "K")])]

/-- C4, as stated, is false: a well-formed but non-array document leaves the
collection unchanged but surfaces no error at all — the `Array.isArray`
check has no else branch, so nothing is raised or alerted. -/
theorem c4_counterexample :
    handleImportSaved (some (Json.obj [])) [entryA]
      = ([entryA], ImportOutcome.ignoredNonArray) ∧
    ImportOutcome.ignoredNonArray ≠ ImportOutcome.parseError :=
  ⟨rfl, by decide⟩

/-- C4 (amended): a malformed (unparsable) document leaves the existing
saved-items collection unmodified and surfaces the parse error; a
well-formed non-array document also leaves the collection unmodified but is
silently ignored, with no error surfaced. -/
theorem c4_amended_theorem (prev : List Json) (j : Json) (hj : isArr j = false) :
    handleImportSaved none prev = (prev, ImportOutcome.parseError) ∧
    handleImportSaved (some j) prev = (prev, ImportOutcome.ignoredNonArray) := by
  refine ⟨rfl, ?_⟩
  cases j with
  | arr elems => simp [isArr] at hj
  | null => rfl
  | bool b => rfl
  | num n => rfl
  | str s => rfl
  | obj fields => rfl

/-- C4 amended-theorem witness at concrete inputs. -/
theorem c4_witness :
    handleImportSaved none [entryA] = ([entryA], ImportOutcome.parseError) ∧
    handleImportSaved (some (Json.num 3)) [entryA]
      = ([entryA], ImportOutcome.ignoredNonArray) :=
  c4_amended_theorem [entryA] (Json.num 3) rfl

/-- C10, as stated, is false: a well-formed JSON array may contain the
element `null`, which "lacks a result field" but is not silently skipped —
the unguarded access `item.result` throws a `TypeError` that aborts the
merge instead of skipping the element. -/
theorem c10_counterexample :
    handleImportSaved (some (Json.arr [Json.null])) []
      = ([], ImportOutcome.thrown) ∧
    ImportOutcome.thrown ≠ ImportOutcome.merged ∧
    ImportOutcome.thrown ≠ ImportOutcome.parseError :=
  ⟨rfl, by decide, by decide⟩

/-- C10 (amended): when Import receives a well-formed JSON array none of
whose elements is `null`, and the existing collection's items support key
extraction, the merge succeeds with no error raised, and elements failing
the guard `item.result && item.result.japanese` (no truthy `result` or no
truthy `result.japanese`) are silently skipped: the outcome equals that of
importing only the elements passing the guard, so a partially valid array
is partially merged. -/
theorem c10_amended_theorem (imported prev : List Json)
    (h1 : ∀ it ∈ imported, isNull it = false)
    (h2 : ∀ it ∈ prev, keyOk it = true) :
    (handleImportSaved (some (Json.arr imported)) prev).2 = ImportOutcome.merged ∧
    handleImportSaved (some (Json.arr imported)) prev
      = handleImportSaved (some (Json.arr (imported.filter importKeep))) prev := by
  obtain ⟨m0, hm0⟩ := buildMapAux_ok prev [] h2
  have hAll2 : ∀ it ∈ imported.filter importKeep, isNull it = false :=
    fun it hit => h1 it ((List.filter_sublist _).subset hit)
  have hf1 : importFold m0 imported = .ok (List.foldl importStepPure m0 imported) :=
    importFold_eq_pure imported m0 h1
  have hf2 : importFold m0 (imported.filter importKeep)
      = .ok (List.foldl importStepPure m0 (imported.filter importKeep)) :=
    importFold_eq_pure _ m0 hAll2
  have hff := foldl_importStepPure_filter imported m0
  have hbm : buildMap prev = .ok m0 := hm0
  constructor
  · simp [handleImportSaved, hbm, hf1]
  · simp [handleImportSaved, hbm, hf1, hf2]
    rw [hff]

/-- C10 amended-theorem witness at concrete inputs: a partially valid array
(one entry-shaped element, one string element) merges its valid element into
an existing collection. -/
theorem c10_witness :
    (handleImportSaved (some (Json.arr [entryA, Json.str "junk"])) [entryC]).2
      = ImportOutcome.merged ∧
    handleImportSaved (some (Json.arr [entryA, Json.str "junk"])) [entryC]
      = handleImportSaved
          (some (Json.arr ([entryA, Json.str "junk"].filter importKeep))) [entryC] :=
  c10_amended_theorem [entryA, Json.str "junk"] [entryC]
    (by
      intro it hit
      rcases List.mem_cons.mp hit with h | h
      · rw [h]; rfl
      · rw [List.mem_singleton.mp h]; rfl)
    (by
      intro it hit
      rw [List.mem_singleton.mp hit]
      rfl)

theorem importFold_distinct (items : List Json) :
    ∀ m, (∀ it ∈ items, importKeep it = true) →
    items.Pairwise (fun a b => okeyEq (importKeyOf a) (importKeyOf b) = false) →
    (∀ it ∈ items, m.any (fun p => okeyEq p.1 (importKeyOf it)) = false) →
    importFold m items = .ok (m ++ items.map (fun it => (importKeyOf it, it))) := by
  induction items with
  | nil => intro m _ _ _; simp [importFold]
  | cons it rest ih =>
    intro m hkeep hpw hfresh
    obtain ⟨j, hj⟩ : ∃ j, importKeyOf it = some j :=
      Option.isSome_iff_exists.mp
        (by simpa [importKeep] using hkeep it (List.mem_cons_self it rest))
    have hnn : isNull it = false := by
      cases it <;> first | rfl | (simp [importKeyOf, getField] at hj)
    have hstep : importStep m it = .ok (mapSet m (some j) it) := by
      rw [importStep_eq_pure m it hnn]
      simp [importStepPure, hj]
    have hset : mapSet m (some j) it = m ++ [(some j, it)] := by
      have hm : m.any (fun p => okeyEq p.1 (some j)) = false := by
        have hfr := hfresh it (List.mem_cons_self it rest)
        rwa [hj] at hfr
      simp [mapSet, hm]
    show (match importStep m it with
      | Except.error e => Except.error e
      | Except.ok m2 => importFold m2 rest)
      = Except.ok (m ++ (it :: rest).map (fun x => (importKeyOf x, x)))
    rw [hstep, hset]
    have hrest := ih (m ++ [(some j, it)])
      (fun x hx => hkeep x (List.mem_cons_of_mem it hx))
      (List.pairwise_cons.mp hpw).2
      (by
        intro x hx
        rw [List.any_append]
        have hA : m.any (fun p => okeyEq p.1 (importKeyOf x)) = false :=
          hfresh x (List.mem_cons_of_mem it hx)
        have hB : okeyEq (some j) (importKeyOf x) = false := by
          have hpair := (List.pairwise_cons.mp hpw).1 x hx
          rwa [hj] at hpair
        simp [hA, hB])
    show importFold (m ++ [(some j, it)]) rest
      = Except.ok (m ++ (it :: rest).map (fun x => (importKeyOf x, x)))
    rw [hrest]
    simp [hj, List.append_assoc]

/-- C5, as stated, is false: a saved collection may contain two items with
the same `result.japanese` (the `part_002` toggle keys on the pair with
`originalText`, so this is reachable).  Importing its export into an empty
collection collapses the two into one — the round trip loses an item. -/
theorem c5_counterexample :
    (handleImportSaved (handleExportSaved [entryA, entryB]) []).1.length = 1 ∧
    ([entryA, entryB] : List Json).length = 2 :=
  ⟨rfl, rfl⟩

/-- C5 (amended): for a non-empty exported collection all of whose items have
a truthy `result` and truthy `result.japanese`, with pairwise distinct
Japanese keys, importing the export into an empty collection reproduces the
collection exactly (same items, same order); and on a key collision with an
existing item the merge overwrites under the `result.japanese` key with the
imported item winning. -/
theorem c5_amended_theorem (saved : List Json) (p q : Json)
    (kp : Option Json) (kq : Json)
    (hne : saved ≠ [])
    (hok : ∀ it ∈ saved, importKeep it = true)
    (hdist : saved.Pairwise (fun a b => okeyEq (importKeyOf a) (importKeyOf b) = false))
    (hp : jsKeyOfPrev p = .ok kp)
    (hq : importKeyOf q = some kq)
    (hcol : okeyEq kp (some kq) = true) :
    handleImportSaved (handleExportSaved saved) [] = (saved, ImportOutcome.merged) ∧
    handleImportSaved (some (Json.arr [q])) [p] = ([q], ImportOutcome.merged) := by
  constructor
  · have hexp : handleExportSaved saved = some (Json.arr saved) := by
      cases saved with
      | nil => exact absurd rfl hne
      | cons a l => rfl
    rw [hexp]
    have hfold := importFold_distinct saved [] hok hdist (fun it _ => rfl)
    simp [handleImportSaved, buildMap, buildMapAux, hfold, List.map_map]
    exact List.map_id saved
  · have hq' : isNull q = false := by
      cases q <;> first | rfl | (simp [importKeyOf, getField] at hq)
    have hbm : buildMap [p] = .ok [(kp, p)] := by
      simp [buildMap, buildMapAux, hp, mapSet]
    have hstep : importStep [(kp, p)] q = .ok (mapSet [(kp, p)] (some kq) q) := by
      rw [importStep_eq_pure _ _ hq']
      simp [importStepPure, hq]
    have hset : mapSet [(kp, p)] (some kq) q = [(kp, q)] := by
      simp [mapSet, List.any_cons, hcol]
    simp [handleImportSaved, hbm, importFold, hstep, hset]

/-- C5 amended-theorem witness at concrete inputs: a two-item collection with
distinct keys round-trips; an import under key "J" overwrites the existing
"J" entry with the imported one. -/
theorem c5_witness :
    handleImportSaved (handleExportSaved [entryA, entryC]) []
      = ([entryA, entryC], ImportOutcome.merged) ∧
    handleImportSaved (some (Json.arr [entryA])) [entryB]
      = ([entryA], ImportOutcome.merged) :=
  c5_amended_theorem [entryA, entryC] entryB entryA
    (some (Json.str "J")) (Json.str "J")
    (List.cons_ne_nil _ _)
    (by
      intro it hit
      rcases List.mem_cons.mp hit with h | h
      · rw [h]; rfl
      · rw [List.mem_singleton.mp h]; rfl)
    (by
      apply List.pairwise_cons.mpr
      refine ⟨?_, List.pairwise_singleton _ _⟩
      intro b hb
      rw [List.mem_singleton.mp hb]
      rfl)
    rfl rfl rfl

/-! ## Translate-flow orchestration (`handleTranslate` in both variants) and
the AI-service error/text plumbing (`geminiService`, embedded in
`src/components/HistoryList.tsx`).

The backend call is asynchronous and external; its settled outcome is a
model parameter (`Except` of the thrown error message or the parsed
result), and one `handleTranslate` run is the state transition from the
state at submission to the state after the handlers ran. -/

/-- The `AppState` enumeration (`src/unnamed/part_000`). -/
inductive AppStateTag where
  | idle
  | translating
  | success
  | error
  | dictionaryLoading
deriving DecidableEq, Repr

/-- The local state slices touched by the translate flow: UI state, the two
collections, and their persisted copies in the key-value store. -/
structure AppFlowState where
  appState : AppStateTag
  result : Option TranslationResult
  errorMsg : String
  isQuotaExceeded : Bool
  history : List HistoryItem
  savedItems : List HistoryItem
  storedHistory : Option (List HistoryItem)
  storedSaved : Option (List HistoryItem)
deriving DecidableEq, Repr

namespace GeminiService

/-- The message of the error ultimately thrown by `translateTextToJapanese`:
an empty payload becomes `Error("Empty response")`, and the catch-all
rethrows `error.message || "Unknown error"`.  `none` models the
empty-payload path, `some m` a backend error with message `m`. -/
def translateFailureMessage (source : Option String) : String :=
  match source with
  | none => "Empty response"
  | some m => if m == "" then "Unknown error" else m

/-- Function `transcribeAudio` from the embedded `geminiService`: forwards the audio
payload and MIME type to the backend (abstracted as the settled outcome) and
returns `response.text?.trim() || ""` — an absent text is the empty string,
not an error; a thrown backend error is rethrown with
`error.message || "Transcription error"`. -/
def transcribeAudio (base64Audio mimeType : String)
    (backend : Except String (Option String)) : Except String String :=
  match backend with
  | .error m => .error (if m == "" then "Transcription error" else m)
  | .ok none => .ok ""
  | .ok (some t) => .ok (jsTrim t)

end GeminiService

namespace AppTsx

/-- Quota detection in `src/App.tsx`:
`e.message?.includes('429') || e.message?.includes('quota')`. -/
def signalsQuota (msg : String) : Bool :=
  hasSubstr "429" msg || hasSubstr "quota" msg

/-- The quota-exceeded error banner text of `src/App.tsx`. -/
def quotaMsg : String :=
  "API Quota Exceeded. Please wait a moment or use your own API key."

/-- The generic translate-failure banner text of `src/App.tsx`. -/
def genericMsg : String := "Translation failed. Please try again."

/-- Function `handleTranslate` from `src/App.tsx`: no-op on blank input; on submission
clears the banner and the quota advisory; on success stores the result and
records history (also to the persisted copy); on failure classifies the
error — quota signals set the persistent advisory and a quota banner, all
other failures only the generic banner. -/
def handleTranslate (st : AppFlowState) (inputText : String)
    (outcome : Except String TranslationResult) (now : Nat) : AppFlowState :=
  if jsTrim inputText == "" then st
  else
    match outcome with
    | .ok data =>
      let updated := recordHistory st.history inputText data now
      { st with
        appState := .success
        errorMsg := ""
        isQuotaExceeded := false
        result := some data
        history := updated
        storedHistory := some updated }
    | .error m =>
      if signalsQuota m then
        { st with
          appState := .error
          errorMsg := quotaMsg
          isQuotaExceeded := true }
      else
        { st with
          appState := .error
          errorMsg := genericMsg
          isQuotaExceeded := false }

end AppTsx

namespace Part002

/-- The generic translate-failure banner text of `src/unnamed/part_002`. -/
def genericMsg : String := "Unable to translate at this moment. Please try again."

/-- Function `handleTranslate` from `src/unnamed/part_002`: no-op on blank input;
clears the banner and the displayed result at submission (`setResult(null)`);
on success stores the result and records history; on failure only the error
state and the generic banner are set — so after a failure the previously
displayed result is gone. -/
def handleTranslate (st : AppFlowState) (inputText : String)
    (outcome : Except String TranslationResult) (now : Nat) : AppFlowState :=
  if jsTrim inputText == "" then st
  else
    match outcome with
    | .ok data =>
      let updated := saveToHistory st.history inputText data now
      { st with
        appState := .success
        errorMsg := ""
        result := some data
        history := updated
        storedHistory := some updated }
    | .error _ =>
      { st with
        appState := .error
        result := none
        errorMsg := genericMsg }

end Part002

/-- The transcription caller in `toggleRecording` (`src/App.tsx`):
`if (text) setInputText(prev => prev + (prev ? ' ' : '') + text)` — the input
text is appended to only when the transcription is non-empty. -/
def appendTranscript (input text : String) : String :=
  if text == "" then input
  else input ++ (if input == "" then "" else " ") ++ text

/-- A concrete flow state displaying a result, for counterexamples and
witnesses. -/
def stSample : AppFlowState :=
  { appState := AppStateTag.success
    result := some trSample
    errorMsg := ""
    isQuotaExceeded := false
    history := []
    savedItems := []
    storedHistory := none
    storedSaved := none }

/-- C6, as stated, is false: the `part_002` translate flow clears the
displayed result at submission (`setResult(null)`), so after a failed call
the previously displayed result is not left untouched — it is gone. -/
theorem c6_counterexample :
    (Part002.handleTranslate stSample "hi" (Except.error "boom") 1).result = none ∧
    stSample.result = some trSample ∧
    (none : Option TranslationResult) ≠ some trSample :=
  ⟨rfl, rfl, by decide⟩

/-- C6 (amended): in both translate flows a failed call leaves the history
collection, the saved-items collection and their persisted copies untouched
(history is only recorded on success); the `src/App.tsx` flow also leaves the
previously displayed result untouched, while the `part_002` flow has already
cleared the displayed result at submission, so after a failure it is `none`
rather than the prior result. -/
theorem c6_amended_theorem (st : AppFlowState) (input m : String) (now : Nat)
    (hin : jsTrim input ≠ "") :
    (AppTsx.handleTranslate st input (Except.error m) now).history = st.history ∧
    (AppTsx.handleTranslate st input (Except.error m) now).savedItems = st.savedItems ∧
    (AppTsx.handleTranslate st input (Except.error m) now).storedHistory = st.storedHistory ∧
    (AppTsx.handleTranslate st input (Except.error m) now).storedSaved = st.storedSaved ∧
    (AppTsx.handleTranslate st input (Except.error m) now).result = st.result ∧
    (Part002.handleTranslate st input (Except.error m) now).history = st.history ∧
    (Part002.handleTranslate st input (Except.error m) now).savedItems = st.savedItems ∧
    (Part002.handleTranslate st input (Except.error m) now).storedHistory = st.storedHistory ∧
    (Part002.handleTranslate st input (Except.error m) now).storedSaved = st.storedSaved ∧
    (Part002.handleTranslate st input (Except.error m) now).result = none := by
  have hg : (jsTrim input == "") = false := beq_eq_false_iff_ne.mpr hin
  cases hq : AppTsx.signalsQuota m <;>
    simp [AppTsx.handleTranslate, Part002.handleTranslate, hg, hq]

/-- C6 amended-theorem witness at concrete inputs. -/
theorem c6_witness :
    (AppTsx.handleTranslate stSample "hi" (Except.error "boom") 1).history
      = stSample.history ∧
    (AppTsx.handleTranslate stSample "hi" (Except.error "boom") 1).savedItems
      = stSample.savedItems ∧
    (AppTsx.handleTranslate stSample "hi" (Except.error "boom") 1).storedHistory
      = stSample.storedHistory ∧
    (AppTsx.handleTranslate stSample "hi" (Except.error "boom") 1).storedSaved
      = stSample.storedSaved ∧
    (AppTsx.handleTranslate stSample "hi" (Except.error "boom") 1).result
      = stSample.result ∧
    (Part002.handleTranslate stSample "hi" (Except.error "boom") 1).history
      = stSample.history ∧
    (Part002.handleTranslate stSample "hi" (Except.error "boom") 1).savedItems
      = stSample.savedItems ∧
    (Part002.handleTranslate stSample "hi" (Except.error "boom") 1).storedHistory
      = stSample.storedHistory ∧
    (Part002.handleTranslate stSample "hi" (Except.error "boom") 1).storedSaved
      = stSample.storedSaved ∧
    (Part002.handleTranslate stSample "hi" (Except.error "boom") 1).result = none :=
  c6_amended_theorem stSample "hi" "boom" 1 (by decide)

/-- C7: on a failed translate call in `src/App.tsx`, the flow enters the
error state; it is classified as rate-limited exactly when the thrown message
contains "429" or "quota" (the backend's quota signal, via status code text
or keyword); a rate-limited failure sets the persistent quota advisory flag
and the quota banner, while every other failure yields only the generic error
banner with the advisory flag off.  The advisory is distinct state from the
banner: the two texts differ, and the flag is a separate field.  The service
layer preserves the backend's message (substituting "Unknown error" for an
empty one, and "Empty response" for an empty payload), so the classification
sees the backend's words. -/
theorem c7_theorem (st : AppFlowState) (input m : String) (now : Nat)
    (hin : jsTrim input ≠ "") (hm : m ≠ "") :
    (AppTsx.handleTranslate st input (Except.error m) now).appState
      = AppStateTag.error ∧
    (AppTsx.handleTranslate st input (Except.error m) now).isQuotaExceeded
      = AppTsx.signalsQuota m ∧
    (AppTsx.handleTranslate st input (Except.error m) now).errorMsg
      = (if AppTsx.signalsQuota m then AppTsx.quotaMsg else AppTsx.genericMsg) ∧
    AppTsx.signalsQuota m = (hasSubstr "429" m || hasSubstr "quota" m) ∧
    AppTsx.quotaMsg ≠ AppTsx.genericMsg ∧
    GeminiService.translateFailureMessage (some m) = m ∧
    GeminiService.translateFailureMessage none = "Empty response" := by
  have hg : (jsTrim input == "") = false := beq_eq_false_iff_ne.mpr hin
  have hmm : (m == "") = false := beq_eq_false_iff_ne.mpr hm
  refine ⟨?_, ?_, ?_, rfl, by decide, ?_, rfl⟩
  · cases hq : AppTsx.signalsQuota m <;> simp [AppTsx.handleTranslate, hg, hq]
  · cases hq : AppTsx.signalsQuota m <;> simp [AppTsx.handleTranslate, hg, hq]
  · cases hq : AppTsx.signalsQuota m <;> simp [AppTsx.handleTranslate, hg, hq]
  · simp [GeminiService.translateFailureMessage, hmm]

/-- C7 witness at concrete inputs: a quota-keyword failure message. -/
theorem c7_witness :
    (AppTsx.handleTranslate stSample "hi" (Except.error "quota exhausted") 1).appState
      = AppStateTag.error ∧
    (AppTsx.handleTranslate stSample "hi" (Except.error "quota exhausted") 1).isQuotaExceeded
      = AppTsx.signalsQuota "quota exhausted" ∧
    (AppTsx.handleTranslate stSample "hi" (Except.error "quota exhausted") 1).errorMsg
      = (if AppTsx.signalsQuota "quota exhausted" then AppTsx.quotaMsg
         else AppTsx.genericMsg) ∧
    AppTsx.signalsQuota "quota exhausted"
      = (hasSubstr "429" "quota exhausted" || hasSubstr "quota" "quota exhausted") ∧
    AppTsx.quotaMsg ≠ AppTsx.genericMsg ∧
    GeminiService.translateFailureMessage (some "quota exhausted") = "quota exhausted" ∧
    GeminiService.translateFailureMessage none = "Empty response" :=
  c7_theorem stSample "hi" "quota exhausted" 1 (by decide) (by decide)

/-- C8: `transcribeAudio` returns the empty string, not a thrown failure,
whenever the backend response contains no text (or only whitespace), for
every audio payload and MIME type; and the caller appends to the input text
only when the transcription is non-empty — an empty transcription leaves the
input unchanged. -/
theorem c8_theorem (base64Audio mimeType input t s : String)
    (ht : t ≠ "") (hs : jsTrim s = "") :
    GeminiService.transcribeAudio base64Audio mimeType (Except.ok none)
      = Except.ok "" ∧
    GeminiService.transcribeAudio base64Audio mimeType (Except.ok (some s))
      = Except.ok "" ∧
    appendTranscript input "" = input ∧
    appendTranscript input t
      = input ++ (if input == "" then "" else " ") ++ t := by
  refine ⟨rfl, ?_, rfl, ?_⟩
  · simp [GeminiService.transcribeAudio, hs]
  · simp [appendTranscript, beq_eq_false_iff_ne.mpr ht]

/-- C8 witness at concrete inputs: a whitespace-only backend text and a
non-empty transcription. -/
theorem c8_witness :
    GeminiService.transcribeAudio "payload" "audio/webm" (Except.ok none)
      = Except.ok "" ∧
    GeminiService.transcribeAudio "payload" "audio/webm" (Except.ok (some "  "))
      = Except.ok "" ∧
    appendTranscript "hello" "" = "hello" ∧
    appendTranscript "hello" "world"
      = "hello" ++ (if "hello" == "" then "" else " ") ++ "world" :=
  c8_theorem "payload" "audio/webm" "hello" "world" "  " (by decide) (by decide)

/-! ## Identifier generation (`Date.now().toString()`) -/

theorem decDigitsCore_lt_ten : ∀ fuel n, ∀ d ∈ decDigitsCore fuel n, d < 10 := by
  intro fuel
  induction fuel with
  | zero => intro n d hd; simp [decDigitsCore] at hd
  | succ f ih =>
    intro n d hd
    by_cases h0 : n = 0
    · simp [decDigitsCore, h0] at hd
    · simp only [decDigitsCore, h0, if_false] at hd
      rcases List.mem_cons.mp hd with rfl | hd2
      · exact Nat.mod_lt n (by norm_num)
      · exact ih _ d hd2

/-- Recombination of little-endian decimal digits, used to invert
`decDigitsCore`. -/
def ofDecDigits : List Nat → Nat
  | [] => 0
  | d :: ds => d + 10 * ofDecDigits ds

theorem ofDecDigits_decDigitsCore : ∀ fuel n, n ≤ fuel →
    ofDecDigits (decDigitsCore fuel n) = n := by
  intro fuel
  induction fuel with
  | zero =>
    intro n h
    have h0 : n = 0 := Nat.le_zero.mp h
    simp [h0, decDigitsCore, ofDecDigits]
  | succ f ih =>
    intro n h
    by_cases h0 : n = 0
    · simp [decDigitsCore, h0, ofDecDigits]
    · simp only [decDigitsCore, h0, if_false, ofDecDigits]
      have hdiv : n / 10 ≤ f := by
        have h1 : n / 10 < n := Nat.div_lt_self (Nat.pos_of_ne_zero h0) (by norm_num)
        omega
      rw [ih _ hdiv]
      exact Nat.mod_add_div n 10

theorem digitChar_inj :
    ∀ d1 < 10, ∀ d2 < 10, digitChar d1 = digitChar d2 → d1 = d2 := by decide

theorem map_digitChar_inj : ∀ l1 l2 : List Nat,
    (∀ d ∈ l1, d < 10) → (∀ d ∈ l2, d < 10) →
    l1.map digitChar = l2.map digitChar → l1 = l2 := by
  intro l1
  induction l1 with
  | nil =>
    intro l2 _ _ h
    cases l2 with
    | nil => rfl
    | cons e es => simp at h
  | cons d ds ih =>
    intro l2 h1 h2 h
    cases l2 with
    | nil => simp at h
    | cons e es =>
      simp only [List.map_cons, List.cons.injEq] at h
      obtain ⟨hde, hrest⟩ := h
      have hd : d = e := digitChar_inj d (h1 d (List.mem_cons_self d ds))
        e (h2 e (List.mem_cons_self e es)) hde
      rw [hd, ih es (fun x hx => h1 x (List.mem_cons_of_mem d hx))
        (fun x hx => h2 x (List.mem_cons_of_mem e hx)) hrest]

theorem jsNatToString_ne_zero_str (n : Nat) (hn : n ≠ 0) : jsNatToString n ≠ "0" := by
  intro h
  apply hn
  have hd : ((decDigitsCore n n).reverse.map digitChar) = ['0'] := by
    have h2 := congrArg String.data h
    simpa [jsNatToString, hn] using h2
  cases hrev : (decDigitsCore n n).reverse with
  | nil => rw [hrev] at hd; simp at hd
  | cons d ds2 =>
    rw [hrev] at hd
    simp only [List.map_cons, List.cons.injEq] at hd
    obtain ⟨h1, h2⟩ := hd
    have hds2 : ds2 = [] := by
      cases ds2 with
      | nil => rfl
      | cons x xs => simp at h2
    have hdmem : d ∈ decDigitsCore n n :=
      List.mem_reverse.mp (by rw [hrev]; exact List.mem_cons_self d ds2)
    have hd10 : d < 10 := decDigitsCore_lt_ten n n d hdmem
    have hd0 : d = 0 := digitChar_inj d hd10 0 (by norm_num) (by rw [h1]; rfl)
    have hds : decDigitsCore n n = [0] := by
      have h3 := congrArg List.reverse hrev
      rw [List.reverse_reverse] at h3
      rw [h3, hds2, hd0]
      rfl
    have h4 := ofDecDigits_decDigitsCore n n (le_refl n)
    rw [hds] at h4
    simpa [ofDecDigits] using h4.symm

/-- The model of `Number.prototype.toString` is injective: distinct
`Date.now()` values yield distinct id strings. -/
theorem jsNatToString_inj : ∀ m n : Nat, jsNatToString m = jsNatToString n → m = n := by
  intro m n h
  by_cases hm : m = 0
  · by_cases hn : n = 0
    · rw [hm, hn]
    · exact absurd h.symm (by rw [hm]; exact jsNatToString_ne_zero_str n hn)
  · by_cases hn : n = 0
    · exact absurd h (by rw [hn]; exact jsNatToString_ne_zero_str m hm)
    · have hd : ((decDigitsCore m m).reverse.map digitChar)
          = ((decDigitsCore n n).reverse.map digitChar) := by
        have h2 := congrArg String.data h
        simpa [jsNatToString, hm, hn] using h2
      have hrev : (decDigitsCore m m).reverse = (decDigitsCore n n).reverse :=
        map_digitChar_inj _ _
          (fun d hdm => decDigitsCore_lt_ten m m d (List.mem_reverse.mp hdm))
          (fun d hdn => decDigitsCore_lt_ten n n d (List.mem_reverse.mp hdn)) hd
      have hds : decDigitsCore m m = decDigitsCore n n := by
        have h3 := congrArg List.reverse hrev
        rwa [List.reverse_reverse, List.reverse_reverse] at h3
      have h4 := ofDecDigits_decDigitsCore m m (le_refl m)
      rw [hds, ofDecDigits_decDigitsCore n n (le_refl n)] at h4
      exact h4.symm

theorem foldl_histStep_sublist (l : List HistIns) :
    List.Sublist (List.foldl histStep [] l)
      (l.reverse.map (fun i => Part002.mkHistoryItem i.text i.res i.now)) := by
  induction l using List.reverseRecOn with
  | nil => simp
  | append_singleton l a ih =>
    rw [List.foldl_append]
    simp only [List.foldl_cons, List.foldl_nil]
    have hshape : (l ++ [a]).reverse.map (fun i => Part002.mkHistoryItem i.text i.res i.now)
        = Part002.mkHistoryItem a.text a.res a.now ::
          l.reverse.map (fun i => Part002.mkHistoryItem i.text i.res i.now) := by
      simp
    rw [hshape]
    have hfil : List.Sublist
        ((List.foldl histStep [] l).filter
          (fun item => jsToLower item.originalText != jsToLower (jsTrim a.text)))
        (l.reverse.map (fun i => Part002.mkHistoryItem i.text i.res i.now)) :=
      (List.filter_sublist _).trans ih
    exact (List.take_sublist _ _).trans (hfil.cons₂ _)

/-- C9, as stated, is false: ids come from `Date.now()`, so two insertions in
the same millisecond receive the same id.  Two `saveToHistory` calls with
distinct texts at the same clock value leave two items in the collection with
identical ids. -/
theorem c9_counterexample :
    List.map HistoryItem.id
      (Part002.saveToHistory (Part002.saveToHistory [] "a" trSample 5) "b" trSample 5)
      = [jsNatToString 5, jsNatToString 5] ∧
    List.map HistoryItem.originalText
      (Part002.saveToHistory (Part002.saveToHistory [] "a" trSample 5) "b" trSample 5)
      = ["b", "a"] :=
  ⟨rfl, rfl⟩

/-- C9 (amended): ids are injective images of the clock — if all insertions
into the recent-history collection carry pairwise distinct `Date.now()`
values then the collection holds pairwise distinct ids after any insertion
sequence, and the saved-items id `saved-${Date.now()}` is likewise distinct
across distinct clock values; but insertions within the same millisecond
receive identical ids (see the counterexample). -/
theorem c9_amended_theorem (l : List HistIns) (n1 n2 : Nat)
    (t1 t2 : String) (r1 r2 : TranslationResult)
    (hl : l.Pairwise (fun a b => a.now ≠ b.now)) (hn : n1 ≠ n2) :
    (List.foldl histStep [] l).Pairwise (fun x y => x.id ≠ y.id) ∧
    jsNatToString n1 ≠ jsNatToString n2 ∧
    (Part002.mkSavedItem t1 r1 n1).id ≠ (Part002.mkSavedItem t2 r2 n2).id := by
  have hstr : jsNatToString n1 ≠ jsNatToString n2 :=
    fun h => hn (jsNatToString_inj n1 n2 h)
  refine ⟨?_, hstr, ?_⟩
  · have hrev : l.reverse.Pairwise (fun a b => a.now ≠ b.now) :=
      List.pairwise_reverse.mpr (hl.imp (fun h => Ne.symm h))
    have hmap : (l.reverse.map (fun i => Part002.mkHistoryItem i.text i.res i.now)).Pairwise
        (fun x y => x.id ≠ y.id) := by
      apply List.pairwise_map.mpr
      apply hrev.imp
      intro a b hab
      exact fun h => hab (jsNatToString_inj a.now b.now h)
    exact hmap.sublist (foldl_histStep_sublist l)
  · intro h
    apply hstr
    have h2 : "saved-" ++ jsNatToString n1 = "saved-" ++ jsNatToString n2 := h
    have hd := congrArg String.data h2
    rw [String.data_append, String.data_append] at hd
    exact String.ext (List.append_cancel_left hd)

/-- C9 amended-theorem witness at concrete inputs: three insertions at
distinct clock values. -/
theorem c9_witness :
    (List.foldl histStep []
        [⟨"a", trSample, 1⟩, ⟨"b", trSample, 2⟩, ⟨"c", trSample, 3⟩]).Pairwise
      (fun x y => x.id ≠ y.id) ∧
    jsNatToString 4 ≠ jsNatToString 5 ∧
    (Part002.mkSavedItem "x" trSample 4).id ≠ (Part002.mkSavedItem "y" trSample 5).id :=
  c9_amended_theorem [⟨"a", trSample, 1⟩, ⟨"b", trSample, 2⟩, ⟨"c", trSample, 3⟩]
    4 5 "x" "y" trSample trSample (by decide) (by decide)
